import Mathlib

/-!
Verification development for the Turing Pattern Lab reaction-diffusion core
(the WebGL simulation engine in the repository's shared simulation file and
its UI loop).

Embedding conventions:
* GPU floating-point arithmetic is modelled exactly over `ℚ`; decimal
  literals such as `0.05` are exact rationals.
* A simulation grid is a function `ZMod n → ZMod n → ℚ × ℚ` (the pair is
  the `(U, V)` = `(r, g)` channels of a texel).  The textures are created
  with `gl.REPEAT` wrap, so neighbour lookup is toroidal; `ZMod n`
  arithmetic gives exactly that wrapping.
* The fragment shaders' `length(v_uv - u_brushPos) < brushNorm` test is a
  Euclidean-norm comparison; both sides are nonnegative, so it is embedded
  square-root-free as `0 ≤ brushNorm ∧ dist² < brushNorm²`, which is
  equivalent over the reals.
-/

/-- GLSL `clamp(x, lo, hi)`. -/
def clamp (x lo hi : ℚ) : ℚ := min (max x lo) hi

/-- The brush uniforms passed to each simulation shader:
`u_brushActive`, `u_brushPos` (normalized), `u_brushRadius` (cells),
`u_brushErase`. -/
structure Brush where
  active : Bool
  pos : ℚ × ℚ
  radius : ℚ
  erase : Bool
deriving DecidableEq

/-- An inactive brush (`u_brushActive == 0`). -/
def brushOff : Brush := { active := false, pos := (0, 0), radius := 0, erase := false }

/-- The shaders' `length((v_uv - u_brushPos) * vec2(1.0)) < brushNorm`,
stated without a square root: both sides of the comparison are
nonnegative, so it is equivalent to comparing squares. -/
def inBrush (uv bpos : ℚ × ℚ) (brushNorm : ℚ) : Prop :=
  0 ≤ brushNorm ∧ (uv.1 - bpos.1) ^ 2 + (uv.2 - bpos.2) ^ 2 < brushNorm ^ 2

instance (uv bpos : ℚ × ℚ) (bn : ℚ) : Decidable (inBrush uv bpos bn) :=
  inferInstanceAs (Decidable (And _ _))

/-- The nine weights of the shared 3×3 Laplacian stencil, in the order the
shader `laplacian` function accumulates them. -/
def stencilWeights : List ℚ :=
  [0.05, 0.2, 0.05, 0.2, -1.0, 0.2, 0.05, 0.2, 0.05]

/-- One channel of the shaders' `laplacian(tex, uv, ts)`: the 3×3 weighted
neighbour sum.  Texture offsets of one texel with `gl.REPEAT` wrapping are
`ZMod n` index offsets. -/
def lapChannel {n : ℕ} (t : ZMod n → ZMod n → ℚ) (x y : ZMod n) : ℚ :=
  t (x - 1) (y - 1) * 0.05 + t x (y - 1) * 0.2 + t (x + 1) (y - 1) * 0.05 +
    t (x - 1) y * 0.2 + t x y * (-1.0) + t (x + 1) y * 0.2 +
    t (x - 1) (y + 1) * 0.05 + t x (y + 1) * 0.2 + t (x + 1) (y + 1) * 0.05

/-- The shaders' `laplacian`, applied independently to the two channels
(`.rg` of the state texture). -/
def laplacian {n : ℕ} (g : ZMod n → ZMod n → ℚ × ℚ) (x y : ZMod n) : ℚ × ℚ :=
  (lapChannel (fun a b => (g a b).1) x y, lapChannel (fun a b => (g a b).2) x y)

/-- The normalized texel-centre coordinate `v_uv` of grid cell `(x, y)`
when rendering the full-screen quad into an `n × n` framebuffer. -/
def uvOf (n : ℕ) (x y : ZMod n) : ℚ × ℚ :=
  (((x.val : ℚ) + 0.5) / (n : ℚ), ((y.val : ℚ) + 0.5) / (n : ℚ))

/-- Per-fragment body of `GRAY_SCOTT_SHADER main`: Euler update of the
Gray-Scott kinetics, then the brush override, then `clamp` to `[0, 1]`. -/
def grayScottCell (f k Du Dv dt : ℚ) (brush : Brush) (uv : ℚ × ℚ) (brushNorm : ℚ)
    (state lap : ℚ × ℚ) : ℚ × ℚ :=
  let u := state.1
  let v := state.2
  let uvv := u * v * v
  let du := Du * lap.1 - uvv + f * (1 - u)
  let dv := Dv * lap.2 + uvv - (f + k) * v
  let u1 := u + du * dt
  let v1 := v + dv * dt
  let uv2 :=
    if brush.active ∧ inBrush uv brush.pos brushNorm then
      if brush.erase then ((1 : ℚ), (0 : ℚ)) else (u1, (1 : ℚ))
    else (u1, v1)
  (clamp uv2.1 0 1, clamp uv2.2 0 1)

/-- Per-fragment body of `FITZHUGH_NAGUMO_SHADER main`: Euler update of the
Fitzhugh-Nagumo kinetics, then the brush override, then `clamp` to `[-2, 2]`. -/
def fitzhughNagumoCell (epsilon a0 a1 Du Dv dt : ℚ) (brush : Brush) (uv : ℚ × ℚ)
    (brushNorm : ℚ) (state lap : ℚ × ℚ) : ℚ × ℚ :=
  let u := state.1
  let v := state.2
  let du := Du * lap.1 + u - u * u * u - v
  let dv := Dv * lap.2 + epsilon * (u - a1 * v - a0)
  let u1 := u + du * dt
  let v1 := v + dv * dt
  let uv2 :=
    if brush.active ∧ inBrush uv brush.pos brushNorm then
      if brush.erase then ((0 : ℚ), (0 : ℚ)) else ((1 : ℚ), v1)
    else (u1, v1)
  (clamp uv2.1 (-2) 2, clamp uv2.2 (-2) 2)

/-- Per-fragment body of `SCHNAKENBERG_SHADER main`: Euler update of the
Schnakenberg kinetics, then the brush override (erase resets to the
analytic equilibrium `(a+b, b/(a+b)²)`, seed adds `0.5` to U), then
`clamp` to `[0, 10]`. -/
def schnakenbergCell (a b gamma Du Dv dt : ℚ) (brush : Brush) (uv : ℚ × ℚ)
    (brushNorm : ℚ) (state lap : ℚ × ℚ) : ℚ × ℚ :=
  let u := state.1
  let v := state.2
  let u2v := u * u * v
  let du := Du * lap.1 + gamma * (a - u + u2v)
  let dv := Dv * lap.2 + gamma * (b - u2v)
  let u1 := u + du * dt
  let v1 := v + dv * dt
  let uv2 :=
    if brush.active ∧ inBrush uv brush.pos brushNorm then
      if brush.erase then
        let equ := a + b
        let eqv := b / (equ * equ)
        (equ, eqv)
      else (u1 + 0.5, v1)
    else (u1, v1)
  (clamp uv2.1 0 10, clamp uv2.2 0 10)

/-- One `simStep` draw call with the Gray-Scott program: every cell of the
next grid is the shader applied to the current grid.  `brushNorm` is the
shader's `u_brushRadius / float(textureSize(u_state, 0).x)`. -/
def grayScottStep (n : ℕ) (f k Du Dv dt : ℚ) (brush : Brush)
    (g : ZMod n → ZMod n → ℚ × ℚ) : ZMod n → ZMod n → ℚ × ℚ :=
  fun x y =>
    grayScottCell f k Du Dv dt brush (uvOf n x y) (brush.radius / (n : ℚ))
      (g x y) (laplacian g x y)

/-- One `simStep` draw call with the Fitzhugh-Nagumo program. -/
def fitzhughNagumoStep (n : ℕ) (epsilon a0 a1 Du Dv dt : ℚ) (brush : Brush)
    (g : ZMod n → ZMod n → ℚ × ℚ) : ZMod n → ZMod n → ℚ × ℚ :=
  fun x y =>
    fitzhughNagumoCell epsilon a0 a1 Du Dv dt brush (uvOf n x y)
      (brush.radius / (n : ℚ)) (g x y) (laplacian g x y)

/-- One `simStep` draw call with the Schnakenberg program. -/
def schnakenbergStep (n : ℕ) (a b gamma Du Dv dt : ℚ) (brush : Brush)
    (g : ZMod n → ZMod n → ℚ × ℚ) : ZMod n → ZMod n → ℚ × ℚ :=
  fun x y =>
    schnakenbergCell a b gamma Du Dv dt brush (uvOf n x y)
      (brush.radius / (n : ℚ)) (g x y) (laplacian g x y)

/-- Iterating `simStep`, with the brush state of step `i` given by
`brushes i` (the UI passes a fresh brush state each step). -/
def iterateSteps {n : ℕ}
    (stepF : Brush → (ZMod n → ZMod n → ℚ × ℚ) → ZMod n → ZMod n → ℚ × ℚ)
    (brushes : ℕ → Brush) : ℕ → (ZMod n → ZMod n → ℚ × ℚ) → ZMod n → ZMod n → ℚ × ℚ
  | 0, g => g
  | Nat.succ j, g => stepF (brushes j) (iterateSteps stepF brushes j g)

-- Helper lemmas about `clamp` and the Laplacian.

theorem clamp_le (x lo hi : ℚ) : clamp x lo hi ≤ hi := min_le_right _ _

theorem le_clamp (x lo hi : ℚ) (h : lo ≤ hi) : lo ≤ clamp x lo hi :=
  le_min (le_max_right _ _) h

theorem clamp_eq_self (x lo hi : ℚ) (h1 : lo ≤ x) (h2 : x ≤ hi) : clamp x lo hi = x := by
  unfold clamp
  rw [max_eq_left h1, min_eq_left h2]

theorem lapChannel_const {n : ℕ} (c : ℚ) (x y : ZMod n) :
    lapChannel (fun _ _ => c) x y = 0 := by
  unfold lapChannel
  ring

theorem laplacian_const {n : ℕ} (c : ℚ × ℚ) (x y : ZMod n) :
    laplacian (fun _ _ => c) x y = (0, 0) := by
  unfold laplacian
  rw [lapChannel_const, lapChannel_const]

/-!
## Parameter schema and model catalogue

Transcribed from the `MODELS` table of the simulation file.  The `info`
HTML strings are omitted: they are display-only documentation used by no
operation modelled here.
-/

/-- One entry of a model's `params` schema list. -/
structure ParamSpec where
  id : String
  label : String
  lo : ℚ
  hi : ℚ
  dflt : ℚ
  step : ℚ
deriving DecidableEq

/-- One entry of a model's `presets` list: the preset's `name`, its `desc`,
and the parameter ids it overrides (the JS object's non-`name`/`desc`
numeric keys). -/
structure Preset where
  name : String
  overrides : List (String × ℚ)
  desc : String
deriving DecidableEq

/-- One value of the `MODELS` table. -/
structure Model where
  name : String
  params : List ParamSpec
  presets : List Preset
deriving DecidableEq

/-- The `MODELS` table. -/
def MODELS : List (String × Model) :=
  [("gray-scott",
    { name := "Gray-Scott"
      params :=
        [⟨"f", "Feed rate (f)", 0.000, 0.100, 0.055, 0.001⟩,
         ⟨"k", "Kill rate (k)", 0.000, 0.080, 0.062, 0.001⟩,
         ⟨"Du", "Diffusion U", 0.05, 1.00, 0.21, 0.01⟩,
         ⟨"Dv", "Diffusion V", 0.01, 0.50, 0.10, 0.01⟩,
         ⟨"dt", "Timestep", 0.1, 2.0, 1.0, 0.1⟩]
      presets :=
        [⟨"Turing Pattern", [("f", 0.028), ("k", 0.062)], "Classic Turing pattern - self-replicating spots."⟩,
         ⟨"Coral", [("f", 0.062), ("k", 0.063)], "Branching, coral-like growth."⟩,
         ⟨"Worms", [("f", 0.078), ("k", 0.061)], "Writhing, worm-like stripes."⟩,
         ⟨"Maze", [("f", 0.029), ("k", 0.057)], "Dense labyrinthine patterns."⟩,
         ⟨"Holes", [("f", 0.039), ("k", 0.058)], "Negative-space spots."⟩,
         ⟨"Chaos", [("f", 0.026), ("k", 0.051)], "Unstable, constantly shifting."⟩,
         ⟨"Ripple", [("f", 0.014), ("k", 0.045)], "Concentric expanding rings."⟩,
         ⟨"Spots", [("f", 0.030), ("k", 0.062)], "Stable Turing spots (leopard-print)."⟩,
         ⟨"Stripes", [("f", 0.042), ("k", 0.059)], "Parallel stripe formation."⟩] }),
   ("fitzhugh-nagumo",
    { name := "Fitzhugh-Nagumo"
      params :=
        [⟨"epsilon", "Epsilon", 0.001, 0.100, 0.020, 0.001⟩,
         ⟨"a0", "a0", -0.50, 0.50, -0.005, 0.005⟩,
         ⟨"a1", "a1", 0.10, 5.00, 2.00, 0.10⟩,
         ⟨"Du", "Diffusion U", 0.05, 2.00, 1.00, 0.05⟩,
         ⟨"Dv", "Diffusion V", 0.01, 1.00, 0.50, 0.01⟩,
         ⟨"dt", "Timestep", 0.01, 0.50, 0.10, 0.01⟩]
      presets :=
        [⟨"Spirals", [("epsilon", 0.020), ("a0", -0.005), ("a1", 2.00)], "Classic rotating spiral waves."⟩,
         ⟨"Target Waves", [("epsilon", 0.020), ("a0", 0.100), ("a1", 2.00)], "Concentric rings from excitation points."⟩,
         ⟨"Turbulence", [("epsilon", 0.010), ("a0", -0.100), ("a1", 1.50)], "Chaotic spiral breakup."⟩,
         ⟨"Slow Pulse", [("epsilon", 0.050), ("a0", 0.000), ("a1", 3.00)], "Slow, wide traveling pulses."⟩,
         ⟨"Fast Excitable", [("epsilon", 0.005), ("a0", 0.050), ("a1", 2.50)], "Rapid, thin wave fronts."⟩] }),
   ("schnakenberg",
    { name := "Schnakenberg"
      params :=
        [⟨"a", "a", 0.01, 0.50, 0.10, 0.01⟩,
         ⟨"b", "b", 0.50, 2.00, 0.90, 0.01⟩,
         ⟨"gamma", "Gamma", 10, 1000, 200, 10⟩,
         ⟨"Du", "Diffusion U", 0.05, 2.00, 1.00, 0.05⟩,
         ⟨"Dv", "Diffusion V", 5.0, 100.0, 40.0, 1.0⟩,
         ⟨"dt", "Timestep", 0.0001, 0.01, 0.001, 0.0001⟩]
      presets :=
        [⟨"Hex Spots", [("a", 0.10), ("b", 0.90), ("gamma", 200)], "Hexagonal array of spots."⟩,
         ⟨"Zebra Stripes", [("a", 0.05), ("b", 0.90), ("gamma", 500)], "Regular parallel stripes."⟩,
         ⟨"Mixed", [("a", 0.08), ("b", 1.00), ("gamma", 300)], "Spots transitioning to stripes."⟩,
         ⟨"Dense Dots", [("a", 0.12), ("b", 0.80), ("gamma", 800)], "Tightly packed small spots."⟩,
         ⟨"Wide Bands", [("a", 0.04), ("b", 1.20), ("gamma", 150)], "Broad, widely spaced stripes."⟩] })]

/-!
## Controller state

Association lists stand in for JS objects used as string-keyed maps:
`getVal` is property read, `setKey` is property assignment (update in
place if present, append otherwise — JS objects keep insertion order).
-/

/-- Read a key from a string-keyed map (JS property access, `undefined`
becomes `none`). -/
def getVal {α : Type} : List (String × α) → String → Option α
  | [], _ => none
  | (k', v) :: rest, k => if k' = k then some v else getVal rest k

/-- Assign a key in a string-keyed map (JS property assignment). -/
def setKey {α : Type} : List (String × α) → String → α → List (String × α)
  | [], k, v => [(k, v)]
  | (k', v') :: rest, k, v =>
    if k' = k then (k, v) :: rest else (k', v') :: setKey rest k v

/-- `MODELS[modelId]`, as an `Option` (`undefined` for unknown ids). -/
def lookupModel (modelId : String) : Option Model := getVal MODELS modelId

/-- JS `x || d` for an optionally-present numeric property: the default is
used when the property is absent or its value is falsy (`0`). -/
def orFallback (o : Option ℚ) (d : ℚ) : ℚ :=
  match o with
  | some v => if v = 0 then d else v
  | none => d

/-- The `metrics` record published to the music engine. -/
structure Metrics where
  coverage : ℚ
  delta : ℚ
  cluster_count : ℚ
  symmetry : ℚ
  edge_density : ℚ
  com_x : ℚ
  com_y : ℚ
deriving DecidableEq

/-- The initial `metrics` value of the module. -/
def metricsInit : Metrics :=
  { coverage := 0, delta := 0, cluster_count := 0, symmetry := 0,
    edge_density := 0, com_x := 0.5, com_y := 0.5 }

/-- The mutable module-level state of the `Simulation` closure that the
modelled operations touch.  The grid is the flat `Float32Array` cell data
(`(U, V)` per cell; the constant `0`/`1` blue/alpha channels are
dropped). -/
structure SimState where
  gridSize : ℕ
  running : Bool
  stepsPerFrame : ℕ
  currentModel : String
  params : List (String × ℚ)
  currentPresetName : String
  currentColorMap : String
  metrics : Metrics
  prevSample : Option (List ℚ)
  grid : List (ℚ × ℚ)
deriving DecidableEq

/-- `loadModelDefaults()`: repopulate `params` with the active model's
schema defaults.  `MODELS[currentModel]` is `undefined` for an unknown
model id and the subsequent `.params` access throws; that exceptional
path is `none`. -/
def loadModelDefaults (st : SimState) : Option SimState :=
  (lookupModel st.currentModel).map fun mdl =>
    { st with params := mdl.params.map fun p => (p.id, p.dflt) }

/-- `initGrid()`: build the seed cell data for the active model.
`Math.random()` is modelled by the `noise` input stream (the `i`-th call
returns `noise i`, a value in `[0, 1)`); the Schnakenberg seed makes two
calls per cell.  An unknown model id leaves the `Float32Array` all
zeros. -/
def initGrid (noise : ℕ → ℚ) (st : SimState) : List (ℚ × ℚ) :=
  let n := st.gridSize
  if st.currentModel = "gray-scott" then
    (List.range (n * n)).map fun i =>
      let x := i % n
      let y := i / n
      let cx := (n : ℚ) / 2
      let cy := (n : ℚ) / 2
      let r := max 4 ((n : ℚ) / 20)
      if ((x : ℚ) - cx) * ((x : ℚ) - cx) + ((y : ℚ) - cy) * ((y : ℚ) - cy) < r * r then
        (0.5, 0.25)
      else (1.0, 0.0)
  else if st.currentModel = "fitzhugh-nagumo" then
    (List.range (n * n)).map fun _ => (0.0, 0.0)
  else if st.currentModel = "schnakenberg" then
    let a := orFallback (getVal st.params "a") 0.10
    let b := orFallback (getVal st.params "b") 0.90
    let equ := a + b
    let eqv := b / (equ * equ)
    (List.range (n * n)).map fun i =>
      (equ + (noise (2 * i) - 0.5) * 0.01, eqv + (noise (2 * i + 1) - 0.5) * 0.01)
  else (List.range (n * n)).map fun _ => (0, 0)

/-- `setGridSize(size)`: store the size and reseed (`initGrid`;
`setupDownsampleFBO` touches no modelled state). -/
def setGridSize (size : ℕ) (noise : ℕ → ℚ) (st : SimState) : SimState :=
  let st := { st with gridSize := size }
  { st with grid := initGrid noise st }

/-- `setModel(modelId)`: store the id, `loadModelDefaults()`, `initGrid()`,
and clear `prevSample`. -/
def setModel (modelId : String) (noise : ℕ → ℚ) (st : SimState) : Option SimState :=
  (loadModelDefaults { st with currentModel := modelId }).map fun st =>
    { st with grid := initGrid noise st, prevSample := none }

/-- `setParam(key, value)`: unconditional property assignment. -/
def setParam (key : String) (value : ℚ) (st : SimState) : SimState :=
  { st with params := setKey st.params key value }

/-- The `model.params.forEach(...)` override loop shared by `loadPreset`
and `loadFromURL`: for each schema parameter whose id is present in
`src`, assign that value into the accumulating map. -/
def applyOverrides (src : List (String × ℚ)) (specs : List ParamSpec)
    (base : List (String × ℚ)) : List (String × ℚ) :=
  specs.foldl
    (fun acc p =>
      match getVal src p.id with
      | some v => setKey acc p.id v
      | none => acc)
    base

/-- `loadPreset(index)`: look up the active model's preset; if absent,
return with no change; otherwise store the preset name and overwrite only
the schema parameters the preset specifies.  As in `setModel`, an unknown
active model id would throw (`none`). -/
def loadPreset (index : ℕ) (st : SimState) : Option SimState :=
  (lookupModel st.currentModel).map fun mdl =>
    match mdl.presets.get? index with
    | none => st
    | some preset =>
      { st with currentPresetName := preset.name,
                params := applyOverrides preset.overrides mdl.params st.params }

/-- `loadPresetAndClear(index)`: `loadPreset` then `initGrid()` and clear
`prevSample`. -/
def loadPresetAndClear (index : ℕ) (noise : ℕ → ℚ) (st : SimState) : Option SimState :=
  (loadPreset index st).map fun st =>
    { st with grid := initGrid noise st, prevSample := none }

/-!
## Permalink serialization

The URL query string is a flat key-value map.  The reserved keys
(`model`, `preset`, `colormap`, `grid`, `speed`) are disjoint from every
parameter id in `MODELS`, so the query is modelled as a record with those
five fields plus the parameter map.  JS serializes numbers to decimal
strings and `parseInt`/`parseFloat` read them back exactly, so numeric
round-tripping through the string layer is the identity and the numbers
are kept as numbers. -/
structure Query where
  model : Option String
  preset : Option String
  colormap : Option String
  grid : Option ℕ
  speed : Option ℕ
  params : List (String × ℚ)
deriving DecidableEq

/-- `getPermalink()` (the query part of the produced URL): serialize the
model id, preset name, color map, grid size, steps-per-frame, and every
entry of `params`. -/
def getPermalink (st : SimState) : Query :=
  { model := some st.currentModel
    preset := some st.currentPresetName
    colormap := some st.currentColorMap
    grid := some st.gridSize
    speed := some st.stepsPerFrame
    params := st.params }

/-- `loadFromURL()`: read the query into the module state.  A present
`model` key is stored verbatim and `loadModelDefaults()` runs (throwing —
`none` — on an unknown id, with no fallback); `grid`, `speed`, `colormap`
are stored; then each schema parameter of the (possibly new) active model
present in the query is parsed and assigned; finally a present `preset`
key sets the preset name. -/
def loadFromURL (q : Query) (st : SimState) : Option SimState :=
  let step1 : Option SimState :=
    match q.model with
    | some mid => loadModelDefaults { st with currentModel := mid }
    | none => some st
  match step1 with
  | none => none
  | some st =>
    let st := match q.grid with | some g => { st with gridSize := g } | none => st
    let st := match q.speed with | some s => { st with stepsPerFrame := s } | none => st
    let st := match q.colormap with | some c => { st with currentColorMap := c } | none => st
    match lookupModel st.currentModel with
    | none => none
    | some mdl =>
      let st := { st with params := applyOverrides q.params mdl.params st.params }
      match q.preset with
      | some p => some { st with currentPresetName := p }
      | none => some st

/-!
## Metrics extraction (`computeMetrics`)

The GPU part of `computeMetrics` (blit of the current state into the
fixed 64×64 downsample FBO and `readPixels`) is not numeric logic; the
embedding takes the resulting `vValues` array (the G = V channel of the
64×64 readback) as an input list and models everything from there.  Array
indexing `vValues[i]` is `vs.getD i 0` (all loops stay in bounds).
`Math.sqrt`, used only for the symmetry correlation, has no exact
rational value; the numeric square-root routine is passed in as `sqrtA`.
-/

/-- The fixed downsample resolution. -/
def dsSize : ℕ := 64

/-- `dsSize * dsSize`, the length of `vValues`. -/
def dsCells : ℕ := dsSize * dsSize

/-- The model-specific activation threshold: `0.25`, overridden to `0.0`
for Fitzhugh-Nagumo and to `1.2 × V_eq` for Schnakenberg (reading `a`,
`b` from the live params). -/
def metricsThreshold (modelId : String) (params : List (String × ℚ)) : ℚ :=
  if modelId = "fitzhugh-nagumo" then 0.0
  else if modelId = "schnakenberg" then
    let a := (getVal params "a").getD 0
    let b := (getVal params "b").getD 0
    b / ((a + b) * (a + b)) * 1.2
  else 0.25

/-- `coverageCount`: cells with `v > thresh`. -/
def coverageCountOf (vA : ℕ → ℚ) (thresh : ℚ) : ℕ :=
  ((List.range dsCells).filter fun i => thresh < vA i).length

/-- `totalDelta`: sum of `|v - prevSample[i]|` (only accumulated when a
previous sample exists). -/
def totalDeltaOf (vA pA : ℕ → ℚ) : ℚ :=
  ((List.range dsCells).map fun i => |vA i - pA i|).sum

/-- `comX` (and, via the `y` index, `comY`): `Σ x·|v|`. -/
def comXOf (vA : ℕ → ℚ) : ℚ :=
  ((List.range dsCells).map fun i => ((i % dsSize : ℕ) : ℚ) * |vA i|).sum

/-- `comY`: `Σ y·|v|`. -/
def comYOf (vA : ℕ → ℚ) : ℚ :=
  ((List.range dsCells).map fun i => ((i / dsSize : ℕ) : ℚ) * |vA i|).sum

/-- `comTotal`: `Σ |v|`, the center-of-mass normalization denominator. -/
def comTotalOf (vA : ℕ → ℚ) : ℚ :=
  ((List.range dsCells).map fun i => |vA i|).sum

/-- `edgeCount`: interior cells whose above-threshold state differs from a
4-neighbour. -/
def edgeCountOf (vA : ℕ → ℚ) (thresh : ℚ) : ℕ :=
  ((List.range dsCells).filter fun i =>
    let x := i % dsSize
    let y := i / dsSize
    (decide (0 < x) && decide (x < dsSize - 1) && decide (0 < y) && decide (y < dsSize - 1)) &&
      (let above := decide (thresh < vA ((y - 1) * dsSize + x))
       let below := decide (thresh < vA ((y + 1) * dsSize + x))
       let left := decide (thresh < vA (y * dsSize + (x - 1)))
       let right := decide (thresh < vA (y * dsSize + (x + 1)))
       let self := decide (thresh < vA i)
       (self != above) || (self != below) || (self != left) || (self != right))).length

/-- `symNum`: `Σ left·right` over the left half. -/
def symNumOf (vA : ℕ → ℚ) : ℚ :=
  ((List.range dsSize).map fun y =>
    ((List.range (dsSize / 2)).map fun x =>
      vA (y * dsSize + x) * vA (y * dsSize + (dsSize - 1 - x))).sum).sum

/-- `symDen1`: `Σ left²`. -/
def symDen1Of (vA : ℕ → ℚ) : ℚ :=
  ((List.range dsSize).map fun y =>
    ((List.range (dsSize / 2)).map fun x =>
      vA (y * dsSize + x) * vA (y * dsSize + x)).sum).sum

/-- `symDen2`: `Σ right²`. -/
def symDen2Of (vA : ℕ → ℚ) : ℚ :=
  ((List.range dsSize).map fun y =>
    ((List.range (dsSize / 2)).map fun x =>
      vA (y * dsSize + (dsSize - 1 - x)) * vA (y * dsSize + (dsSize - 1 - x))).sum).sum

/-- The flood-fill `while (stack.length > 0)` loop, made structurally
recursive on a fuel argument.  Every iteration pops one entry and each
cell is marked visited at most once; `5 * dsCells + 8` fuel therefore
strictly exceeds the number of iterations the JS loop can perform, so the
fueled loop computes the same visited set. -/
def floodFill (vA : ℕ → ℚ) (thresh : ℚ) : ℕ → List ℕ → (ℕ → Bool) → (ℕ → Bool)
  | 0, _, visited => visited
  | _ + 1, [], visited => visited
  | fuel + 1, ci :: stack, visited =>
    if visited ci then floodFill vA thresh fuel stack visited
    else
      let vis := fun j => j == ci || visited j
      let cx := ci % dsSize
      let cy := ci / dsSize
      let s1 := if 0 < cx ∧ thresh < vA (ci - 1) ∧ vis (ci - 1) = false then
        (ci - 1) :: stack else stack
      let s2 := if cx < dsSize - 1 ∧ thresh < vA (ci + 1) ∧ vis (ci + 1) = false then
        (ci + 1) :: s1 else s1
      let s3 := if 0 < cy ∧ thresh < vA (ci - dsSize) ∧ vis (ci - dsSize) = false then
        (ci - dsSize) :: s2 else s2
      let s4 := if cy < dsSize - 1 ∧ thresh < vA (ci + dsSize) ∧ vis (ci + dsSize) = false then
        (ci + dsSize) :: s3 else s3
      floodFill vA thresh fuel s4 vis

/-- `clusters`: flood-fill 4-connected above-threshold regions, breaking
out of the scan once the count reaches 100 (the guard on the accumulator
models the JS `break`). -/
def clusterCountOf (vA : ℕ → ℚ) (thresh : ℚ) : ℕ :=
  ((List.range dsCells).foldl
    (fun (acc : ℕ × (ℕ → Bool)) i =>
      if 100 ≤ acc.1 then acc
      else if thresh < vA i ∧ acc.2 i = false then
        if 100 ≤ acc.1 + 1 then (acc.1 + 1, acc.2)
        else (acc.1 + 1, floodFill vA thresh (5 * dsCells + 8) [i] acc.2)
      else acc)
    (0, fun _ => false)).1

/-- The EMA smoothing factor `alpha`. -/
def alphaEMA : ℚ := 0.15

/-- JS `Math.round`: round half toward positive infinity. -/
def jsRound (x : ℚ) : ℚ := ((⌊x + 0.5⌋ : ℤ) : ℚ)

/-- `computeMetrics()`, from the `vValues` readback on: computes the raw
descriptors and blends them into the running `metrics` by EMA, guarding
`delta` on a missing previous sample and the center of mass on a zero
total mass; returns the new `metrics` together with the new `prevSample`
(`vValues.slice()`). -/
def computeMetricsCore (modelId : String) (params : List (String × ℚ))
    (prevSample : Option (List ℚ)) (m : Metrics) (sqrtA : ℚ → ℚ)
    (vs : List ℚ) : Metrics × List ℚ :=
  let vA : ℕ → ℚ := fun i => vs.getD i 0
  let thresh := metricsThreshold modelId params
  let coverageCount := coverageCountOf vA thresh
  let totalDelta :=
    match prevSample with
    | some ps => totalDeltaOf vA fun i => ps.getD i 0
    | none => 0
  let edgeCount := edgeCountOf vA thresh
  let symDen1 := symDen1Of vA
  let symDen2 := symDen2Of vA
  let symCorr :=
    if 0 < symDen1 ∧ 0 < symDen2 then symNumOf vA / sqrtA (symDen1 * symDen2) else 0
  let clusters := clusterCountOf vA thresh
  let rawCoverage := (coverageCount : ℚ) / (dsCells : ℚ)
  let rawDelta := match prevSample with | some _ => totalDelta / (dsCells : ℚ) | none => 0
  let rawEdge := (edgeCount : ℚ) / (dsCells : ℚ)
  let comTotal := comTotalOf vA
  let com :=
    if 0 < comTotal then
      (m.com_x * (1 - alphaEMA) + comXOf vA / comTotal / (dsSize : ℚ) * alphaEMA,
       m.com_y * (1 - alphaEMA) + comYOf vA / comTotal / (dsSize : ℚ) * alphaEMA)
    else (m.com_x, m.com_y)
  ({ coverage := m.coverage * (1 - alphaEMA) + rawCoverage * alphaEMA
     delta := m.delta * (1 - alphaEMA) + rawDelta * alphaEMA
     cluster_count := jsRound (m.cluster_count * (1 - alphaEMA) + (clusters : ℚ) * alphaEMA)
     symmetry := m.symmetry * (1 - alphaEMA) + symCorr * alphaEMA
     edge_density := m.edge_density * (1 - alphaEMA) + rawEdge * alphaEMA
     com_x := com.1
     com_y := com.2 },
   (List.range dsCells).map vA)

/-!
## UI loop cadence (`ui.js`)

`loop()` runs `stepsPerFrame` integration steps when `running`, then
calls `computeMetrics` exactly when `stepCount % 8 === 0`; `doStep()`
performs one step and the same check.  Only the step counter and whether
extraction fired are modelled. -/

/-- One animation-frame `loop()` body: the new `stepCount` and whether
metrics extraction ran this frame. -/
def loopFrame (running : Bool) (stepsPerFrame stepCount : ℕ) : ℕ × Bool :=
  if running then
    let c := stepCount + stepsPerFrame
    (c, c % 8 == 0)
  else (stepCount, false)

/-- One manual `doStep()`: the new `stepCount` and whether metrics
extraction ran. -/
def doStep (stepCount : ℕ) : ℕ × Bool :=
  let c := stepCount + 1
  (c, c % 8 == 0)

/-!
## Association-list lemmas
-/

theorem getVal_setKey_self {α : Type} (l : List (String × α)) (k : String) (v : α) :
    getVal (setKey l k v) k = some v := by
  induction l with
  | nil => simp [setKey, getVal]
  | cons hd tl ih =>
    by_cases h : hd.1 = k
    · simp [setKey, h, getVal]
    · simpa [setKey, h, getVal] using ih

theorem getVal_setKey_of_ne {α : Type} (l : List (String × α)) (k k' : String) (v : α)
    (h : k' ≠ k) : getVal (setKey l k v) k' = getVal l k' := by
  induction l with
  | nil => simp [setKey, getVal, Ne.symm h]
  | cons hd tl ih =>
    by_cases hh : hd.1 = k
    · simp [setKey, hh, getVal, Ne.symm h]
    · simp only [setKey, hh, if_false, getVal]
      by_cases hk' : hd.1 = k'
      · simp [hk']
      · simp [hk', ih]

theorem getVal_eq_none_of_not_mem {α : Type} (l : List (String × α)) (k : String)
    (h : k ∉ l.map Prod.fst) : getVal l k = none := by
  induction l with
  | nil => rfl
  | cons hd tl ih =>
    simp only [List.map_cons, List.mem_cons, not_or] at h
    simp only [getVal]
    rw [if_neg (fun hh => h.1 hh.symm)]
    exact ih h.2

theorem getVal_isSome_of_mem {α : Type} (l : List (String × α)) (k : String)
    (h : k ∈ l.map Prod.fst) : (getVal l k).isSome := by
  induction l with
  | nil => simp at h
  | cons hd tl ih =>
    simp only [List.map_cons, List.mem_cons] at h
    simp only [getVal]
    by_cases hh : hd.1 = k
    · simp [hh]
    · rw [if_neg hh]
      exact ih (h.resolve_left fun hk => hh hk.symm)

theorem getVal_map_spec (specs : List ParamSpec) (f : ParamSpec → ℚ) (k : String)
    (h : k ∉ specs.map ParamSpec.id) :
    getVal (specs.map fun p => (p.id, f p)) k = none := by
  apply getVal_eq_none_of_not_mem
  simpa [List.map_map, Function.comp] using h

theorem applyOverrides_cons (src : List (String × ℚ)) (p : ParamSpec)
    (rest : List ParamSpec) (base : List (String × ℚ)) :
    applyOverrides src (p :: rest) base =
      applyOverrides src rest
        (match getVal src p.id with
         | some v => setKey base p.id v
         | none => base) := rfl

theorem getVal_applyOverrides_of_not_mem (src : List (String × ℚ))
    (specs : List ParamSpec) (base : List (String × ℚ)) (k : String)
    (h : k ∉ specs.map ParamSpec.id) :
    getVal (applyOverrides src specs base) k = getVal base k := by
  induction specs generalizing base with
  | nil => rfl
  | cons p rest ih =>
    simp only [List.map_cons, List.mem_cons, not_or] at h
    rw [applyOverrides_cons]
    rcases hs : getVal src p.id with _ | v
    · exact ih _ h.2
    · rw [ih _ h.2]
      exact getVal_setKey_of_ne _ _ _ _ h.1

theorem getVal_applyOverrides_of_mem (src : List (String × ℚ))
    (specs : List ParamSpec) (base : List (String × ℚ)) (k : String)
    (hnd : (specs.map ParamSpec.id).Nodup) (hmem : k ∈ specs.map ParamSpec.id) :
    getVal (applyOverrides src specs base) k =
      match getVal src k with
      | some v => some v
      | none => getVal base k := by
  induction specs generalizing base with
  | nil => simp at hmem
  | cons p rest ih =>
    simp only [List.map_cons, List.nodup_cons] at hnd
    simp only [List.map_cons, List.mem_cons] at hmem
    rw [applyOverrides_cons]
    by_cases hk : k = p.id
    · rw [hk]
      rcases hs : getVal src p.id with _ | v
      · exact getVal_applyOverrides_of_not_mem _ _ _ _ hnd.1
      · rw [getVal_applyOverrides_of_not_mem _ _ _ _ hnd.1]
        exact getVal_setKey_self _ _ _
    · have hmem2 : k ∈ rest.map ParamSpec.id := hmem.resolve_left hk
      rcases hs : getVal src p.id with _ | v
      · exact ih _ hnd.2 hmem2
      · rw [ih _ hnd.2 hmem2]
        rcases getVal src k with _ | w
        · exact getVal_setKey_of_ne _ _ _ _ hk
        · rfl

theorem snd_mem_of_getVal_eq_some {α : Type} (l : List (String × α)) (k : String) (v : α)
    (h : getVal l k = some v) : v ∈ l.map Prod.snd := by
  induction l with
  | nil => simp [getVal] at h
  | cons hd tl ih =>
    simp only [getVal] at h
    by_cases hh : hd.1 = k
    · rw [if_pos hh] at h
      simp [← Option.some_inj.mp h]
    · rw [if_neg hh] at h
      simp [ih h]

/-- Every model in the catalogue has duplicate-free parameter ids. -/
theorem models_params_nodup (mid : String) (mdl : Model)
    (h : lookupModel mid = some mdl) : (mdl.params.map ParamSpec.id).Nodup := by
  have hm := snd_mem_of_getVal_eq_some _ _ _ h
  have hall : ∀ m ∈ MODELS.map Prod.snd, (m.params.map ParamSpec.id).Nodup := by decide
  exact hall mdl hm

/-!
## Claim theorems
-/

/-- C8: the shared 3×3 Laplacian stencil (center `-1.0`, edge neighbours
`0.2`, diagonal neighbours `0.05`, toroidal wrap via `ZMod`) has weights
summing to exactly zero, and applying it to any perfectly uniform grid
yields zero at every cell in both channels. -/
theorem laplacian_stencil_conservation :
    stencilWeights.sum = 0 ∧
      ∀ (n : ℕ) (c : ℚ × ℚ) (x y : ZMod n),
        laplacian (fun _ _ => c) x y = (0, 0) := by
  constructor
  · norm_num [stencilWeights]
  · intro n c x y
    exact laplacian_const c x y

/-- C1 counterexample: with the Fitzhugh-Nagumo *default* parameters
(`ε = 0.020`, `a₀ = -0.005`, `a₁ = 2.00`, `Du = 1.00`, `Dv = 0.50`,
`dt = 0.10`), all inside their declared `[min,max]` ranges (recorded in
the first conjuncts), one brush-inactive step moves the uniform
`(U,V) = (0,0)` grid: `dv = ε·(0 - a₁·0 - a₀) = 0.0001 ≠ 0`.  So the
claimed Fitzhugh-Nagumo equilibrium fails for in-range parameters. -/
theorem fhn_zero_grid_drifts_at_default_params :
    ((0.001 : ℚ) ≤ 0.020 ∧ (0.020 : ℚ) ≤ 0.100) ∧
    ((-0.50 : ℚ) ≤ -0.005 ∧ (-0.005 : ℚ) ≤ 0.50) ∧
    ((0.10 : ℚ) ≤ 2.00 ∧ (2.00 : ℚ) ≤ 5.00) ∧
    ((0.05 : ℚ) ≤ 1.00 ∧ (1.00 : ℚ) ≤ 2.00) ∧
    ((0.01 : ℚ) ≤ 0.50 ∧ (0.50 : ℚ) ≤ 1.00) ∧
    ((0.01 : ℚ) ≤ 0.10 ∧ (0.10 : ℚ) ≤ 0.50) ∧
    fitzhughNagumoStep 4 0.020 (-0.005) 2.00 1.00 0.50 0.10 brushOff
      (fun _ _ => (0, 0)) 0 0 ≠ (0, 0) := by
  refine ⟨⟨by norm_num, by norm_num⟩, ⟨by norm_num, by norm_num⟩,
    ⟨by norm_num, by norm_num⟩, ⟨by norm_num, by norm_num⟩,
    ⟨by norm_num, by norm_num⟩, ⟨by norm_num, by norm_num⟩, ?_⟩
  simp only [fitzhughNagumoStep, fitzhughNagumoCell, laplacian_const]
  norm_num [brushOff, clamp, Prod.ext_iff, min_def, max_def]

/-- C1 (amended): a brush-inactive step leaves a uniform equilibrium grid
exactly unchanged for Gray-Scott (`U=1, V=0`; any parameters) and
Schnakenberg (`U=a+b, V=b/(a+b)²`; parameters in their declared ranges);
for Fitzhugh-Nagumo the uniform `(0,0)` grid is fixed only when
`a₀ = 0` (stated here with `a₀` instantiated to `0`): for `a₀ ≠ 0` the
V channel drifts by `ε·a₀·dt`, as the counterexample shows. -/
theorem equilibrium_grid_fixed_by_step (n : ℕ) (x y : ZMod n)
    (f k Du Dv dt : ℚ) (eps a1 Duf Dvf dtf : ℚ) (a b gam Dus Dvs dts : ℚ)
    (ha1 : (0.01 : ℚ) ≤ a) (ha2 : a ≤ 0.50) (hb1 : (0.50 : ℚ) ≤ b) (hb2 : b ≤ 2.00) :
    grayScottStep n f k Du Dv dt brushOff (fun _ _ => (1, 0)) x y = (1, 0) ∧
    fitzhughNagumoStep n eps 0 a1 Duf Dvf dtf brushOff (fun _ _ => (0, 0)) x y = (0, 0) ∧
    schnakenbergStep n a b gam Dus Dvs dts brushOff
        (fun _ _ => (a + b, b / ((a + b) * (a + b)))) x y =
      (a + b, b / ((a + b) * (a + b))) := by
  have hoff : (brushOff.active = true) = False := by simp [brushOff]
  refine ⟨?_, ?_, ?_⟩
  · simp only [grayScottStep, grayScottCell, laplacian_const, hoff, false_and, if_false]
    norm_num [clamp]
  · simp only [fitzhughNagumoStep, fitzhughNagumoCell, laplacian_const, hoff, false_and,
      if_false]
    norm_num [clamp]
  · have hab : (0 : ℚ) < a + b := by linarith
    have hden : (0 : ℚ) < (a + b) * (a + b) := by positivity
    have hu2v : (a + b) * (a + b) * (b / ((a + b) * (a + b))) = b := by
      field_simp
    have heqv1 : (0 : ℚ) ≤ b / ((a + b) * (a + b)) := by positivity
    have heqv2 : b / ((a + b) * (a + b)) ≤ 10 := by
      rw [div_le_iff₀ hden]
      nlinarith [mul_self_nonneg (a + b - 51 / 100)]
    simp only [schnakenbergStep, schnakenbergCell, laplacian_const, hoff, false_and,
      if_false, hu2v]
    rw [Prod.mk.injEq]
    constructor
    · rw [show a + b + (Dus * 0 + gam * (a - (a + b) + b)) * dts = a + b by ring]
      exact clamp_eq_self _ _ _ (by linarith) (by linarith)
    · rw [show b / ((a + b) * (a + b)) + (Dvs * 0 + gam * (b - b)) * dts =
          b / ((a + b) * (a + b)) by ring]
      exact clamp_eq_self _ _ _ heqv1 heqv2

/-- C1 witness: the amended theorem at grid size 4, cell (1,2), the
default parameter values of each model. -/
theorem equilibrium_grid_fixed_by_step_witness :
    ((0.01 : ℚ) ≤ 0.10 ∧ (0.10 : ℚ) ≤ 0.50 ∧ (0.50 : ℚ) ≤ 0.90 ∧ (0.90 : ℚ) ≤ 2.00) ∧
    (grayScottStep 4 0.055 0.062 0.21 0.10 1.0 brushOff (fun _ _ => (1, 0)) 1 2 = (1, 0) ∧
     fitzhughNagumoStep 4 0.020 0 2.00 1.00 0.50 0.10 brushOff (fun _ _ => (0, 0)) 1 2 = (0, 0) ∧
     schnakenbergStep 4 0.10 0.90 200 1.00 40.0 0.001 brushOff
         (fun _ _ => (0.10 + 0.90, 0.90 / ((0.10 + 0.90) * (0.10 + 0.90)))) 1 2 =
       (0.10 + 0.90, 0.90 / ((0.10 + 0.90) * (0.10 + 0.90)))) :=
  ⟨⟨by norm_num, by norm_num, by norm_num, by norm_num⟩,
   equilibrium_grid_fixed_by_step 4 1 2 0.055 0.062 0.21 0.10 1.0
     0.020 2.00 1.00 0.50 0.10 0.10 0.90 200 1.00 40.0 0.001
     (by norm_num) (by norm_num) (by norm_num) (by norm_num)⟩

-- Per-cell range lemmas: each shader ends in `clamp`, so its output lies
-- in the declared range whatever the inputs, parameters and brush.

theorem grayScottStep_range (n : ℕ) (f k Du Dv dt : ℚ) (brush : Brush)
    (g : ZMod n → ZMod n → ℚ × ℚ) (x y : ZMod n) :
    0 ≤ (grayScottStep n f k Du Dv dt brush g x y).1 ∧
      (grayScottStep n f k Du Dv dt brush g x y).1 ≤ 1 ∧
      0 ≤ (grayScottStep n f k Du Dv dt brush g x y).2 ∧
      (grayScottStep n f k Du Dv dt brush g x y).2 ≤ 1 := by
  refine ⟨?_, ?_, ?_, ?_⟩ <;>
    simp only [grayScottStep, grayScottCell] <;>
    first
      | exact le_clamp _ _ _ (by norm_num)
      | exact clamp_le _ _ _

theorem fitzhughNagumoStep_range (n : ℕ) (eps a0 a1 Du Dv dt : ℚ) (brush : Brush)
    (g : ZMod n → ZMod n → ℚ × ℚ) (x y : ZMod n) :
    -2 ≤ (fitzhughNagumoStep n eps a0 a1 Du Dv dt brush g x y).1 ∧
      (fitzhughNagumoStep n eps a0 a1 Du Dv dt brush g x y).1 ≤ 2 ∧
      -2 ≤ (fitzhughNagumoStep n eps a0 a1 Du Dv dt brush g x y).2 ∧
      (fitzhughNagumoStep n eps a0 a1 Du Dv dt brush g x y).2 ≤ 2 := by
  refine ⟨?_, ?_, ?_, ?_⟩ <;>
    simp only [fitzhughNagumoStep, fitzhughNagumoCell] <;>
    first
      | exact le_clamp _ _ _ (by norm_num)
      | exact clamp_le _ _ _

theorem schnakenbergStep_range (n : ℕ) (a b gam Du Dv dt : ℚ) (brush : Brush)
    (g : ZMod n → ZMod n → ℚ × ℚ) (x y : ZMod n) :
    0 ≤ (schnakenbergStep n a b gam Du Dv dt brush g x y).1 ∧
      (schnakenbergStep n a b gam Du Dv dt brush g x y).1 ≤ 10 ∧
      0 ≤ (schnakenbergStep n a b gam Du Dv dt brush g x y).2 ∧
      (schnakenbergStep n a b gam Du Dv dt brush g x y).2 ≤ 10 := by
  refine ⟨?_, ?_, ?_, ?_⟩ <;>
    simp only [schnakenbergStep, schnakenbergCell] <;>
    first
      | exact le_clamp _ _ _ (by norm_num)
      | exact clamp_le _ _ _

/-- C2: after any positive number of integration steps — with an
arbitrary (possibly active) brush at each step, from an arbitrary
starting grid, for arbitrary parameter values (in particular any values
within the declared `[min,max]` ranges) — every cell's `(U,V)` lies in
the model's clamp range: Gray-Scott `[0,1]`, Fitzhugh-Nagumo `[-2,2]`,
Schnakenberg `[0,10]`.  Each shader's final `clamp` enforces this
unconditionally. -/
theorem steps_stay_in_clamp_range (n : ℕ) (f k Du Dv dt : ℚ)
    (eps a0 a1 Duf Dvf dtf : ℚ) (a b gam Dus Dvs dts : ℚ)
    (brushes : ℕ → Brush) (m : ℕ) (hm : 1 ≤ m)
    (g : ZMod n → ZMod n → ℚ × ℚ) (x y : ZMod n) :
    (0 ≤ (iterateSteps (grayScottStep n f k Du Dv dt) brushes m g x y).1 ∧
      (iterateSteps (grayScottStep n f k Du Dv dt) brushes m g x y).1 ≤ 1 ∧
      0 ≤ (iterateSteps (grayScottStep n f k Du Dv dt) brushes m g x y).2 ∧
      (iterateSteps (grayScottStep n f k Du Dv dt) brushes m g x y).2 ≤ 1) ∧
    (-2 ≤ (iterateSteps (fitzhughNagumoStep n eps a0 a1 Duf Dvf dtf) brushes m g x y).1 ∧
      (iterateSteps (fitzhughNagumoStep n eps a0 a1 Duf Dvf dtf) brushes m g x y).1 ≤ 2 ∧
      -2 ≤ (iterateSteps (fitzhughNagumoStep n eps a0 a1 Duf Dvf dtf) brushes m g x y).2 ∧
      (iterateSteps (fitzhughNagumoStep n eps a0 a1 Duf Dvf dtf) brushes m g x y).2 ≤ 2) ∧
    (0 ≤ (iterateSteps (schnakenbergStep n a b gam Dus Dvs dts) brushes m g x y).1 ∧
      (iterateSteps (schnakenbergStep n a b gam Dus Dvs dts) brushes m g x y).1 ≤ 10 ∧
      0 ≤ (iterateSteps (schnakenbergStep n a b gam Dus Dvs dts) brushes m g x y).2 ∧
      (iterateSteps (schnakenbergStep n a b gam Dus Dvs dts) brushes m g x y).2 ≤ 10) := by
  obtain ⟨j, rfl⟩ : ∃ j, m = j + 1 := ⟨m - 1, by omega⟩
  exact ⟨grayScottStep_range n f k Du Dv dt (brushes j) _ x y,
    fitzhughNagumoStep_range n eps a0 a1 Duf Dvf dtf (brushes j) _ x y,
    schnakenbergStep_range n a b gam Dus Dvs dts (brushes j) _ x y⟩

/-- C2 witness: one step at grid size 2, from an out-of-range starting
grid `(3, -7)`, default parameters, inactive brush. -/
theorem steps_stay_in_clamp_range_witness :
    1 ≤ 1 ∧
    ((0 ≤ (iterateSteps (grayScottStep 2 0.055 0.062 0.21 0.10 1.0) (fun _ => brushOff) 1
          (fun _ _ => (3, -7)) 0 1).1 ∧
      (iterateSteps (grayScottStep 2 0.055 0.062 0.21 0.10 1.0) (fun _ => brushOff) 1
          (fun _ _ => (3, -7)) 0 1).1 ≤ 1 ∧
      0 ≤ (iterateSteps (grayScottStep 2 0.055 0.062 0.21 0.10 1.0) (fun _ => brushOff) 1
          (fun _ _ => (3, -7)) 0 1).2 ∧
      (iterateSteps (grayScottStep 2 0.055 0.062 0.21 0.10 1.0) (fun _ => brushOff) 1
          (fun _ _ => (3, -7)) 0 1).2 ≤ 1) ∧
    (-2 ≤ (iterateSteps (fitzhughNagumoStep 2 0.020 (-0.005) 2.00 1.00 0.50 0.10)
          (fun _ => brushOff) 1 (fun _ _ => (3, -7)) 0 1).1 ∧
      (iterateSteps (fitzhughNagumoStep 2 0.020 (-0.005) 2.00 1.00 0.50 0.10)
          (fun _ => brushOff) 1 (fun _ _ => (3, -7)) 0 1).1 ≤ 2 ∧
      -2 ≤ (iterateSteps (fitzhughNagumoStep 2 0.020 (-0.005) 2.00 1.00 0.50 0.10)
          (fun _ => brushOff) 1 (fun _ _ => (3, -7)) 0 1).2 ∧
      (iterateSteps (fitzhughNagumoStep 2 0.020 (-0.005) 2.00 1.00 0.50 0.10)
          (fun _ => brushOff) 1 (fun _ _ => (3, -7)) 0 1).2 ≤ 2) ∧
    (0 ≤ (iterateSteps (schnakenbergStep 2 0.10 0.90 200 1.00 40.0 0.001)
          (fun _ => brushOff) 1 (fun _ _ => (3, -7)) 0 1).1 ∧
      (iterateSteps (schnakenbergStep 2 0.10 0.90 200 1.00 40.0 0.001)
          (fun _ => brushOff) 1 (fun _ _ => (3, -7)) 0 1).1 ≤ 10 ∧
      0 ≤ (iterateSteps (schnakenbergStep 2 0.10 0.90 200 1.00 40.0 0.001)
          (fun _ => brushOff) 1 (fun _ _ => (3, -7)) 0 1).2 ∧
      (iterateSteps (schnakenbergStep 2 0.10 0.90 200 1.00 40.0 0.001)
          (fun _ => brushOff) 1 (fun _ _ => (3, -7)) 0 1).2 ≤ 10)) :=
  ⟨le_refl 1,
   steps_stay_in_clamp_range 2 0.055 0.062 0.21 0.10 1.0 0.020 (-0.005) 2.00 1.00 0.50 0.10
     0.10 0.90 200 1.00 40.0 0.001 (fun _ => brushOff) 1 (le_refl 1)
     (fun _ _ => (3, -7)) 0 1⟩

/-- C6: for Schnakenberg, a step with the brush active in erase mode sets
every cell within the brush radius of the brush position (the shader's
`dist < u_brushRadius / gridSize` test on the cell's normalized
coordinate) to the analytic equilibrium `(a+b, b/(a+b)²)` as a post-step
substitution, for `a`, `b` in their declared ranges (the substituted
values then pass through the final `clamp` unchanged).  Instantiated at
`a = 0.1, b = 0.9` this is `(1.0, 0.9)` — see the witness. -/
theorem schnakenberg_erase_brush_sets_equilibrium (n : ℕ) (a b gam Du Dv dt : ℚ)
    (brush : Brush) (g : ZMod n → ZMod n → ℚ × ℚ) (x y : ZMod n)
    (hact : brush.active = true) (her : brush.erase = true)
    (hin : inBrush (uvOf n x y) brush.pos (brush.radius / (n : ℚ)))
    (ha1 : (0.01 : ℚ) ≤ a) (ha2 : a ≤ 0.50) (hb1 : (0.50 : ℚ) ≤ b) (hb2 : b ≤ 2.00) :
    schnakenbergStep n a b gam Du Dv dt brush g x y =
      (a + b, b / ((a + b) * (a + b))) := by
  have hab : (0 : ℚ) < a + b := by linarith
  have hden : (0 : ℚ) < (a + b) * (a + b) := by positivity
  have heqv1 : (0 : ℚ) ≤ b / ((a + b) * (a + b)) := by positivity
  have heqv2 : b / ((a + b) * (a + b)) ≤ 10 := by
    rw [div_le_iff₀ hden]
    nlinarith [mul_self_nonneg (a + b - 51 / 100)]
  simp only [schnakenbergStep, schnakenbergCell, hact, her, if_true]
  rw [if_pos ⟨by trivial, hin⟩]
  rw [Prod.mk.injEq]
  exact ⟨clamp_eq_self _ _ _ (by linarith) (by linarith),
    clamp_eq_self _ _ _ heqv1 heqv2⟩

/-- C6 witness: grid size 4, cell (2,2) (normalized centre (0.625,
0.625)), brush at that exact position with radius 1, erase mode,
`a = 0.1`, `b = 0.9`: the cell becomes exactly `(1.0, 0.9)`. -/
theorem schnakenberg_erase_brush_sets_equilibrium_witness :
    ({ active := true, pos := (0.625, 0.625), radius := 1, erase := true } : Brush).active = true ∧
    inBrush (uvOf 4 2 2) (0.625, 0.625) ((1 : ℚ) / (4 : ℚ)) ∧
    ((0.01 : ℚ) ≤ 0.10 ∧ (0.90 : ℚ) ≤ 2.00) ∧
    schnakenbergStep 4 0.10 0.90 200 1.00 40.0 0.001
        { active := true, pos := (0.625, 0.625), radius := 1, erase := true }
        (fun _ _ => (5, 5)) 2 2 = (1.0, 0.9) := by
  have hin : inBrush (uvOf 4 2 2) (0.625, 0.625) ((1 : ℚ) / (4 : ℚ)) := by
    constructor
    · norm_num
    · show ((uvOf 4 2 2).1 - 0.625) ^ 2 + ((uvOf 4 2 2).2 - 0.625) ^ 2 < ((1 : ℚ) / 4) ^ 2
      norm_num [uvOf, ZMod.val]
  refine ⟨rfl, hin, ⟨by norm_num, by norm_num⟩, ?_⟩
  have h := schnakenberg_erase_brush_sets_equilibrium 4 0.10 0.90 200 1.00 40.0 0.001
    { active := true, pos := (0.625, 0.625), radius := 1, erase := true }
    (fun _ _ => (5, 5)) 2 2 rfl rfl hin (by norm_num) (by norm_num) (by norm_num) (by norm_num)
  rw [h]
  norm_num

/-!
## Demonstration states for concrete evaluations
-/

/-- A fixed `Math.random` stream for concrete evaluations. -/
def demoNoise : ℕ → ℚ := fun _ => 0.5

/-- A metrics record with every EMA field away from its zero state. -/
def demoMetricsLive : Metrics :=
  { coverage := 1, delta := 1, cluster_count := 1, symmetry := 1,
    edge_density := 1, com_x := 1, com_y := 1 }

/-- A running Gray-Scott state (default parameters, nonzero smoothed
metrics, an existing previous sample). -/
def demoGS : SimState :=
  { gridSize := 2
    running := true
    stepsPerFrame := 16
    currentModel := "gray-scott"
    params := [("f", 0.055), ("k", 0.062), ("Du", 0.21), ("Dv", 0.10), ("dt", 1.0)]
    currentPresetName := "Turing Pattern"
    currentColorMap := "ocean"
    metrics := demoMetricsLive
    prevSample := some [1, 2, 3]
    grid := [(1, 0), (1, 0), (1, 0), (1, 0)] }

/-- C3 counterexample: starting from `demoGS` (whose smoothed coverage is
`1` and whose `prevSample` is nonempty), `setModel` to Fitzhugh-Nagumo
leaves the smoothed coverage at `1` — the six EMA metric fields are not
reset (nothing else runs between `setModel` and the next extraction) —
and `setGridSize` does not even clear `prevSample`. -/
theorem setModel_keeps_ema_metrics :
    (setModel "fitzhugh-nagumo" demoNoise demoGS).map (fun s => s.metrics.coverage) =
        some 1 ∧
      (1 : ℚ) ≠ 0 ∧
      (setGridSize 128 demoNoise demoGS).prevSample = some [1, 2, 3] := by
  refine ⟨rfl, by norm_num, rfl⟩

/-- C3 (amended): `setModel` clears `prevSample` to `none` but leaves the
six exponentially-smoothed metric fields exactly as they were, and
`setGridSize` resets neither `prevSample` nor the metric fields. -/
theorem metrics_state_on_model_switch_and_reseed :
    (∀ (modelId : String) (noise : ℕ → ℚ) (st st' : SimState),
        setModel modelId noise st = some st' →
        st'.prevSample = none ∧ st'.metrics = st.metrics) ∧
      ∀ (size : ℕ) (noise : ℕ → ℚ) (st : SimState),
        (setGridSize size noise st).prevSample = st.prevSample ∧
        (setGridSize size noise st).metrics = st.metrics := by
  constructor
  · intro modelId noise st st' h
    unfold setModel at h
    rw [Option.map_eq_some'] at h
    obtain ⟨st1, h1, rfl⟩ := h
    unfold loadModelDefaults at h1
    rw [Option.map_eq_some'] at h1
    obtain ⟨mdl, _, rfl⟩ := h1
    exact ⟨rfl, rfl⟩
  · intro size noise st
    exact ⟨rfl, rfl⟩

/-- C3 witness: the amended theorem at `demoGS`, switching to
Fitzhugh-Nagumo and resizing to 128. -/
theorem metrics_state_on_model_switch_and_reseed_witness :
    (∃ st', setModel "fitzhugh-nagumo" demoNoise demoGS = some st' ∧
        st'.prevSample = none ∧ st'.metrics = demoGS.metrics) ∧
      (setGridSize 128 demoNoise demoGS).prevSample = demoGS.prevSample ∧
      (setGridSize 128 demoNoise demoGS).metrics = demoGS.metrics := by
  constructor
  · rcases h : setModel "fitzhugh-nagumo" demoNoise demoGS with _ | st'
    · exact absurd h (by decide)
    · exact ⟨st', rfl, metrics_state_on_model_switch_and_reseed.1 _ _ _ _ h⟩
  · exact metrics_state_on_model_switch_and_reseed.2 128 demoNoise demoGS

/-- C4 counterexample: loading an unrecognized model id (`"bogus"`) from
the query does not fall back to the default model — `currentModel` is
assigned verbatim and `loadModelDefaults` then reads `.params` of
`undefined`, throwing before the simulation ever starts (the `none`
result).  `"bogus"` is indeed not in the catalogue. -/
theorem loadFromURL_unknown_model_crashes :
    lookupModel "bogus" = none ∧
      loadFromURL
        { model := some "bogus", preset := none, colormap := none,
          grid := none, speed := none, params := [] } demoGS = none := by
  exact ⟨rfl, rfl⟩

/-- C4 (amended): the configuration layer performs no validation: an
unrecognized model id makes `loadFromURL` throw (`none`) instead of
falling back to the default model, `setParam` stores any value verbatim,
and a parameter value carried by the query — even one outside its
declared `[min,max]` — is stored verbatim into the live parameter map
that the integrator reads. -/
theorem config_validation_is_absent :
    (∀ (q : Query) (st : SimState) (mid : String),
        q.model = some mid → lookupModel mid = none → loadFromURL q st = none) ∧
      (∀ (key : String) (value : ℚ) (st : SimState),
        getVal (setParam key value st).params key = some value) ∧
      ∀ (q : Query) (st : SimState) (mid : String) (mdl : Model) (key : String) (v : ℚ),
        q.model = some mid → lookupModel mid = some mdl →
        key ∈ mdl.params.map ParamSpec.id → getVal q.params key = some v →
        ∃ st', loadFromURL q st = some st' ∧ getVal st'.params key = some v := by
  refine ⟨?_, ?_, ?_⟩
  · intro q st mid hq hl
    obtain ⟨qm, qp, qc, qg, qs, qparams⟩ := q
    simp only at hq
    subst hq
    simp only [loadFromURL, loadModelDefaults]
    simp only [show ({ st with currentModel := mid } : SimState).currentModel = mid from rfl,
      hl, Option.map_none']
  · intro key value st
    exact getVal_setKey_self _ _ _
  · intro q st mid mdl key v hq hl hmem hv
    have hnd := models_params_nodup mid mdl hl
    obtain ⟨qm, qp, qc, qg, qs, qparams⟩ := q
    simp only at hq hv
    subst hq
    rcases qg with _ | gsz <;> rcases qs with _ | spd <;> rcases qc with _ | cm <;>
      rcases qp with _ | pn <;>
      · simp only [loadFromURL, loadModelDefaults,
          show ∀ s : SimState, ({ s with currentModel := mid } : SimState).currentModel = mid
            from fun _ => rfl, hl, Option.map_some']
        refine ⟨_, rfl, ?_⟩
        rw [getVal_applyOverrides_of_mem _ _ _ _ hnd hmem, hv]

/-- The Gray-Scott catalogue entry, for concrete instantiations. -/
def grayScottModel : Model := (MODELS.get ⟨0, by decide⟩).2

/-- C4 witness: the amended theorem at concrete inputs: `"bogus"` throws;
`setParam "f" 5` stores `5`; a query carrying `f = 5` — above the
declared maximum `0.100` for `f` (recorded in the first conjunct) —
loads with `f` still `5`, unclamped. -/
theorem config_validation_is_absent_witness :
    (0.100 : ℚ) < 5 ∧
      loadFromURL
        { model := some "bogus", preset := none, colormap := none,
          grid := none, speed := none, params := [] } demoGS = none ∧
      getVal (setParam "f" 5 demoGS).params "f" = some 5 ∧
      ∃ st', loadFromURL
          { model := some "gray-scott", preset := none, colormap := none,
            grid := none, speed := none, params := [("f", 5)] } demoGS = some st' ∧
        getVal st'.params "f" = some 5 := by
  refine ⟨by norm_num, ?_, ?_, ?_⟩
  · exact config_validation_is_absent.1 _ demoGS "bogus" rfl (by decide)
  · exact config_validation_is_absent.2.1 "f" 5 demoGS
  · exact config_validation_is_absent.2.2 _ demoGS "gray-scott"
      grayScottModel "f" 5 rfl rfl (by decide) rfl

/-- C5: metrics extraction is total on degenerate inputs: with no
previous sample the raw delta contribution is exactly `0` (the smoothed
delta becomes `old·(1-α) + 0·α`), and when the center-of-mass
normalization denominator (the total `|V|` mass `comTotal` of the
downsample) is zero, both `center_of_mass` fields keep their previous
values instead of dividing by zero. -/
theorem metrics_degenerate_inputs_guarded (modelId : String)
    (params : List (String × ℚ)) (m : Metrics) (sqrtA : ℚ → ℚ) (vs : List ℚ)
    (prev : Option (List ℚ))
    (hc : comTotalOf (fun i => vs.getD i 0) = 0) :
    (computeMetricsCore modelId params none m sqrtA vs).1.delta =
        m.delta * (1 - alphaEMA) + 0 * alphaEMA ∧
      (computeMetricsCore modelId params prev m sqrtA vs).1.com_x = m.com_x ∧
      (computeMetricsCore modelId params prev m sqrtA vs).1.com_y = m.com_y := by
  refine ⟨rfl, ?_, ?_⟩ <;>
    · simp only [computeMetricsCore]
      rw [hc]
      simp

/-- C5 witness: the empty readback (all values `0`) has zero total mass,
and extraction from it with no previous sample keeps `delta` at
`old·(1-α)` and the center of mass at its previous value. -/
theorem metrics_degenerate_inputs_guarded_witness :
    comTotalOf (fun i => ([] : List ℚ).getD i 0) = 0 ∧
      (computeMetricsCore "gray-scott" [] none demoMetricsLive (fun q => q) []).1.delta =
        demoMetricsLive.delta * (1 - alphaEMA) + 0 * alphaEMA ∧
      (computeMetricsCore "gray-scott" [] none demoMetricsLive (fun q => q) []).1.com_x =
        demoMetricsLive.com_x ∧
      (computeMetricsCore "gray-scott" [] none demoMetricsLive (fun q => q) []).1.com_y =
        demoMetricsLive.com_y := by
  have hz : (fun i => ([] : List ℚ).getD i 0) = fun _ => (0 : ℚ) := by
    funext i
    cases i <;> rfl
  have hc : comTotalOf (fun i => ([] : List ℚ).getD i 0) = 0 := by
    rw [hz]
    unfold comTotalOf
    apply List.sum_eq_zero
    intro q hq
    simp only [List.mem_map] at hq
    obtain ⟨i, _, hi⟩ := hq
    simp [← hi]
  have h := metrics_degenerate_inputs_guarded "gray-scott" [] demoMetricsLive
    (fun q => q) [] none hc
  exact ⟨hc, h.1, h.2.1, h.2.2⟩

/-- C7: serializing the active model id, grid size, steps-per-frame,
color map, preset name, and the active-model parameter map with
`getPermalink` and loading the result back with `loadFromURL` (into any
prior state) reproduces the identical configuration: same model, same
grid size, same steps-per-frame, same color map, same preset name, and
the same parameter mapping (same keys, same values).  Hypotheses: the
active model id is in the catalogue and the live parameter map's keys
are exactly the model's schema ids (which `loadModelDefaults` always
establishes). -/
theorem permalink_roundtrip (st st2 : SimState) (mdl : Model)
    (hm : lookupModel st.currentModel = some mdl)
    (hkeys : st.params.map Prod.fst = mdl.params.map ParamSpec.id) :
    ∃ st', loadFromURL (getPermalink st) st2 = some st' ∧
      st'.currentModel = st.currentModel ∧
      st'.gridSize = st.gridSize ∧
      st'.stepsPerFrame = st.stepsPerFrame ∧
      st'.currentColorMap = st.currentColorMap ∧
      st'.currentPresetName = st.currentPresetName ∧
      ∀ key, getVal st'.params key = getVal st.params key := by
  have hnd := models_params_nodup _ _ hm
  simp only [loadFromURL, getPermalink, loadModelDefaults]
  rw [show ({ st2 with currentModel := st.currentModel } : SimState).currentModel =
      st.currentModel from rfl, hm]
  simp only [Option.map_some']
  rw [hm]
  refine ⟨_, rfl, rfl, rfl, rfl, rfl, rfl, ?_⟩
  intro key
  by_cases hk : key ∈ mdl.params.map ParamSpec.id
  · rw [getVal_applyOverrides_of_mem _ _ _ _ hnd hk]
    have hsome := getVal_isSome_of_mem st.params key (by rw [hkeys]; exact hk)
    rcases hg : getVal st.params key with _ | v
    · rw [hg] at hsome
      simp at hsome
    · rfl
  · rw [getVal_applyOverrides_of_not_mem _ _ _ _ hk,
      getVal_map_spec _ _ _ hk,
      getVal_eq_none_of_not_mem st.params key (by rw [hkeys]; exact hk)]

/-- C7 witness: the round trip at `demoGS` (Gray-Scott, default
parameters), reloading over `demoGS` itself. -/
theorem permalink_roundtrip_witness :
    lookupModel demoGS.currentModel = some grayScottModel ∧
      ∃ st', loadFromURL (getPermalink demoGS) demoGS = some st' ∧
        st'.currentModel = demoGS.currentModel ∧
        st'.gridSize = demoGS.gridSize ∧
        st'.stepsPerFrame = demoGS.stepsPerFrame ∧
        st'.currentColorMap = demoGS.currentColorMap ∧
        st'.currentPresetName = demoGS.currentPresetName ∧
        ∀ key, getVal st'.params key = getVal demoGS.params key :=
  ⟨rfl, permalink_roundtrip demoGS demoGS grayScottModel rfl (by decide)⟩

/-- C9 counterexample: with `stepsPerFrame = 3` and a cumulative count of
`6`, the frame advances the count to `9`, crossing the multiple `8` of 8
(`6 < 8 ≤ 9`), yet no metrics extraction fires (`9 % 8 ≠ 0`): the loop
only tests divisibility of the post-frame count, so extraction is not
"when and only when the count crosses a multiple of 8". -/
theorem loop_crossing_without_extraction :
    loopFrame true 3 6 = (9, false) ∧ 6 < 8 ∧ 8 ≤ 9 := by decide

/-- C9 (amended): in `loop()`, metrics extraction fires after a frame's
batch of `stepsPerFrame` steps exactly when the loop is running and the
resulting cumulative step count is divisible by 8 (so multiples of 8
crossed mid-batch are skipped, and with `stepsPerFrame` a multiple of 8
extraction fires every frame, i.e. once per `stepsPerFrame` steps); in
the manual `doStep()`, extraction fires exactly when the incremented
count is divisible by 8. -/
theorem metrics_cadence_divisibility :
    (∀ (running : Bool) (spf c : ℕ),
        (loopFrame running spf c).1 = (if running then c + spf else c) ∧
        ((loopFrame running spf c).2 = true ↔ running = true ∧ (c + spf) % 8 = 0)) ∧
      ∀ c : ℕ, (doStep c).1 = c + 1 ∧ ((doStep c).2 = true ↔ (c + 1) % 8 = 0) := by
  constructor
  · intro running spf c
    cases running <;> simp [loopFrame]
  · intro c
    simp [doStep]

/-- C10: with the active model in the catalogue: `loadPreset` with an
index having no preset returns every piece of state unchanged; with a
valid index it changes only `currentPresetName` and exactly the
parameter ids the preset specifies — the grid, grid size, `prevSample`
and all other parameters are untouched, and the grid is never reseeded —
while `loadPresetAndClear` is `loadPreset` followed by a reseed
(`initGrid`) and a `prevSample` clear. -/
theorem loadPreset_noop_and_selective_override (st : SimState) (mdl : Model)
    (hm : lookupModel st.currentModel = some mdl) :
    (∀ index, mdl.presets.get? index = none → loadPreset index st = some st) ∧
      (∀ index preset, mdl.presets.get? index = some preset →
        ∃ st', loadPreset index st = some st' ∧
          st'.grid = st.grid ∧
          st'.gridSize = st.gridSize ∧
          st'.prevSample = st.prevSample ∧
          st'.currentModel = st.currentModel ∧
          st'.currentPresetName = preset.name ∧
          (∀ key, key ∉ mdl.params.map ParamSpec.id →
            getVal st'.params key = getVal st.params key) ∧
          (∀ key, getVal preset.overrides key = none →
            getVal st'.params key = getVal st.params key) ∧
          ∀ key v, key ∈ mdl.params.map ParamSpec.id →
            getVal preset.overrides key = some v →
            getVal st'.params key = some v) ∧
      ∀ index noise st', loadPreset index st = some st' →
        loadPresetAndClear index noise st =
          some { st' with grid := initGrid noise st', prevSample := none } := by
  have hnd := models_params_nodup _ _ hm
  refine ⟨?_, ?_, ?_⟩
  · intro index hi
    simp only [loadPreset, hm, Option.map_some', hi]
  · intro index preset hi
    simp only [loadPreset, hm, Option.map_some', hi]
    refine ⟨_, rfl, rfl, rfl, rfl, rfl, rfl, ?_, ?_, ?_⟩
    · intro key hk
      exact getVal_applyOverrides_of_not_mem _ _ _ _ hk
    · intro key hnone
      by_cases hk : key ∈ mdl.params.map ParamSpec.id
      · rw [getVal_applyOverrides_of_mem _ _ _ _ hnd hk, hnone]
      · exact getVal_applyOverrides_of_not_mem _ _ _ _ hk
    · intro key v hk hv
      rw [getVal_applyOverrides_of_mem _ _ _ _ hnd hk, hv]
  · intro index noise st' h
    unfold loadPresetAndClear
    rw [h]
    rfl

/-- C10 witness: at `demoGS` (Gray-Scott): index 99 has no preset and is
a complete no-op; index 0 ("Turing Pattern") keeps grid and `prevSample`,
renames the preset, overwrites `f` (to `0.028`) but leaves `dt`
untouched; and `loadPresetAndClear` at index 99 reseeds and clears
`prevSample`. -/
theorem loadPreset_noop_and_selective_override_witness :
    loadPreset 99 demoGS = some demoGS ∧
      (∃ st', loadPreset 0 demoGS = some st' ∧
        st'.grid = demoGS.grid ∧
        st'.prevSample = demoGS.prevSample ∧
        st'.currentPresetName = "Turing Pattern" ∧
        getVal st'.params "f" = some 0.028 ∧
        getVal st'.params "dt" = getVal demoGS.params "dt") ∧
      loadPresetAndClear 99 demoNoise demoGS =
        some { demoGS with grid := initGrid demoNoise demoGS, prevSample := none } := by
  have T := loadPreset_noop_and_selective_override demoGS grayScottModel rfl
  have h99 : loadPreset 99 demoGS = some demoGS := T.1 99 (by decide)
  refine ⟨h99, ?_, ?_⟩
  · obtain ⟨st', hst, hgrid, _, hps, _, hname, _, hnone, hmem⟩ :=
      T.2.1 0 { name := "Turing Pattern",
                overrides := [("f", 0.028), ("k", 0.062)],
                desc := "Classic Turing pattern - self-replicating spots." } rfl
    exact ⟨st', hst, hgrid, hps, hname, hmem "f" 0.028 (by decide) rfl, hnone "dt" rfl⟩
  · have := T.2.2 99 demoNoise demoGS h99
    exact this
